import Mathlib

/-!
Verification of the decision engine of `src/main.py` (a synthetic-liquidity
market bot).  The Python source is shallowly embedded: every function below
mirrors one function or method of `main.py` (named in its doc comment), with

* Python ints as `ℤ`, Python floats restricted to the exact rational values
  the program manipulates as `ℚ` (all constants of the source are decimal
  literals, so no rounding is lost),
* the ambient `random` module as an explicit `Rng` value threaded through the
  computation: two unbounded streams of raw draws, with each drawing helper
  clamping its raw draw into the range the corresponding `random` call
  guarantees, so that quantifying over all `Rng` values covers every possible
  seed,
* `time.time()` as an explicit `now : ℚ` parameter (each decision tick reads
  the clock; the embedding passes the tick a single time value),
* the mutable `UltraFastMarketBot` object split into an immutable `Config`
  (the module-level environment constants together with the constructor
  arguments) and a `BotState` record holding the mutable fields.
-/

namespace MM

/-- Order side, the `"buy"` / `"sell"` strings of the source. -/
inductive Side
  | buy
  | sell
deriving DecidableEq, Repr

/-- Order kind, the `"market"` / `"limit"` strings stored under the `"type"`
key of the source's order dicts (`type` is reserved in Lean, hence `otype`). -/
inductive OType
  | market
  | limit
deriving DecidableEq, Repr

/-- Market regime, the `"neutral"` / `"oneway_up"` / `"oneway_down"` strings
of `self.market_mode`. -/
inductive Mode
  | neutral
  | oneway_up
  | oneway_down
deriving DecidableEq, Repr

/-- Trend strength, the `"none"` / `"weak"` / `"medium"` / `"strong"` strings
of `self.oneway_strength`. -/
inductive Strength
  | none
  | weak
  | medium
  | strong
deriving DecidableEq, Repr

/-- Liquidity level, the `"low"` / `"normal"` / `"high"` strings of
`self.liquidity_level`. -/
inductive Liquidity
  | low
  | normal
  | high
deriving DecidableEq, Repr

/-- Micro-trend of the neutral drift branch, the `"slight_up"` /
`"slight_down"` / `"neutral"` strings of `market_trend` in `decide_orders`. -/
inductive Trend
  | slight_up
  | slight_down
  | neutral
deriving DecidableEq, Repr

/-- The configuration constants of `main.py` (module-level `os.getenv`
constants plus the `UltraFastMarketBot.__init__` parameters that are never
mutated).  Default field values are the source's defaults. -/
structure Config where
  ticksize : ℤ := 10
  min_price : ℤ := 10
  spread_filler_threshold : ℤ := 10
  oneway_prob : ℚ := mkRat 8 1000
  oneway_duration_min : ℤ := 20
  oneway_duration_max : ℤ := 120
  upward_bias : ℚ := mkRat 1 2
  market_warmup_seconds : ℚ := 60
  whale_ratio : ℚ := mkRat 7 100
  gap_probability : ℚ := mkRat 3 10
  gap_min_ticks : ℤ := -500
  gap_max_ticks : ℤ := 1000
deriving Repr

/-- The default configuration (every environment variable unset). -/
def cfgD : Config := {}

/-- One price level of the depth snapshot: `(price, quantity)`.  The list of
resting order ids carried by the feed is only read by the counterparty-cancel
worker, which is outside the embedded claims, and is omitted. -/
structure Depth where
  bids : List (ℤ × ℤ)
  asks : List (ℤ × ℤ)
deriving DecidableEq, Repr

/-- The mutable fields of `UltraFastMarketBot` that the decision path reads
or writes. -/
structure BotState where
  depth_data : Option Depth := Option.none
  last_trade_price : Option ℤ := Option.none
  last_close_price : Option ℤ := Option.none
  fallback_price : ℤ := 32000
  market_mode : Mode := Mode.neutral
  market_mode_until : ℚ := 0
  oneway_strength : Strength := Strength.none
  liquidity_level : Liquidity := Liquidity.normal
  prev_market_mode : Mode := Mode.neutral
  prev_oneway_strength : Strength := Strength.none
  prev_market_trend : Option Trend := Option.none
  market_opened_at : Option ℚ := Option.none
deriving Repr

/-- The model of Python's global `random` generator: two unbounded streams of
raw entropy (`floats` for `random.random`-style draws, `ints` for
`randint`/`choice`-style draws) with cursors.  Each drawing helper below
clamps its raw draw into the exact range the corresponding `random` call
guarantees, so quantifying over all `Rng` values ranges over every seed. -/
structure Rng where
  floats : ℕ → ℚ
  ints : ℕ → ℕ
  fi : ℕ
  ii : ℕ

/-- The all-zero generator, used for concrete evaluations. -/
def rng0 : Rng := ⟨fun _ => 0, fun _ => 0, 0, 0⟩

/-- Rational addition, written through `mkRat` so that the kernel can
evaluate it on concrete inputs (it equals `+` on `ℚ`). -/
def qadd (a b : ℚ) : ℚ :=
  mkRat (a.num * (b.den : ℤ) + b.num * (a.den : ℤ)) (a.den * b.den)

/-- Rational subtraction through `mkRat` (equals `-` on `ℚ`). -/
def qsub (a b : ℚ) : ℚ :=
  mkRat (a.num * (b.den : ℤ) - b.num * (a.den : ℤ)) (a.den * b.den)

/-- Rational multiplication through `mkRat` (equals `*` on `ℚ`). -/
def qmul (a b : ℚ) : ℚ :=
  mkRat (a.num * b.num) (a.den * b.den)


/-- `random.random()`: a rational in `[0, 1)`. -/
def randUnit (g : Rng) : ℚ × Rng :=
  let v := g.floats g.fi
  (if 0 ≤ v ∧ v < 1 then v else 0, { g with fi := g.fi + 1 })

/-- `random.randint(lo, hi)`: an integer in `[lo, hi]` (the source never
calls it with `hi < lo`; the `max … 1` guard keeps the model total). -/
def randint (lo hi : ℤ) (g : Rng) : ℤ × Rng :=
  let n := g.ints g.ii
  (lo + (n % max (hi - lo + 1).toNat 1 : ℕ), { g with ii := g.ii + 1 })

/-- `random.choice(l)`: a uniformly drawn element of `l`. -/
def rchoice {α : Type} (l : List α) (dflt : α) (g : Rng) : α × Rng :=
  let n := g.ints g.ii
  (l.getD (n % max l.length 1) dflt, { g with ii := g.ii + 1 })

/-- Selection by cumulative weights, as `random.choices` does internally:
the first element whose cumulative weight exceeds the target is returned
(an element of weight 0 is never selected, matching `bisect_right`). -/
def pickCW {α : Type} : List (α × ℚ) → ℚ → α → α
  | [], _, dflt => dflt
  | (a, w) :: rest, target, dflt =>
      if target < w then a else pickCW rest (qsub target w) dflt

/-- `random.choices(population, weights)[0]`: one weighted draw, realised by
drawing `random.random()` and selecting by cumulative weights. -/
def rchoices {α : Type} (l : List (α × ℚ)) (dflt : α) (g : Rng) : α × Rng :=
  let r := randUnit g
  (pickCW l (qmul r.1 (l.foldr (fun p acc => qadd p.2 acc) 0)) dflt, r.2)

/-- Python's `int(q)` on a rational: truncation toward zero (the numerator's
truncated division by the positive denominator). -/
def ratTrunc (q : ℚ) : ℤ :=
  Int.tdiv q.num q.den

/-- Python's `round(a / b)` for integers `a`, `b` with `b > 0`: the nearest
integer to the exact quotient, ties to the even integer (banker's rounding;
the source computes `protected_price / ts` in floating point, the embedding
uses the exact quotient). -/
def pyRound (a b : ℤ) : ℤ :=
  let d := Int.fdiv a b
  let r := a - d * b
  if 2 * r < b then d
  else if b < 2 * r then d + 1
  else if d % 2 = 0 then d else d + 1

/-- `UltraFastMarketBot.protect_min_price`. -/
def protect_min_price (cfg : Config) (price : ℤ) : ℤ :=
  max price cfg.min_price

/-- `UltraFastMarketBot.nearest_tick` (source lines 165-168):
`int(round(max(price, self.min_price) / ts) * ts)`. -/
def nearest_tick (cfg : Config) (price : ℤ) : ℤ :=
  pyRound (max price cfg.min_price) cfg.ticksize * cfg.ticksize

/-- `UltraFastMarketBot.get_reference_price` (logging elided). -/
def get_reference_price (cfg : Config) (st : BotState) : ℤ :=
  match st.last_trade_price with
  | Option.some ltp => nearest_tick cfg ltp
  | Option.none => nearest_tick cfg st.fallback_price

/-- `UltraFastMarketBot.is_warmup_period`. -/
def is_warmup_period (cfg : Config) (st : BotState) (now : ℚ) : Bool :=
  match st.market_opened_at with
  | Option.none => false
  | Option.some t0 => qsub now t0 < cfg.market_warmup_seconds

/-- The configuration of the C1 counterexample: tick size 8, the default
minimum price 10 (which is not a multiple of the tick size). -/
def cfgC1 : Config := { ticksize := 8 }

lemma pyRound_ge_fdiv (a b : ℤ) : Int.fdiv a b ≤ pyRound a b := by
  unfold pyRound
  dsimp only
  split_ifs <;> omega

lemma nearest_tick_dvd (cfg : Config) (p : ℤ) :
    cfg.ticksize ∣ nearest_tick cfg p :=
  Dvd.intro _ (mul_comm _ _)

lemma nearest_tick_ge_min (cfg : Config) (p : ℤ)
    (ht : 0 < cfg.ticksize) (hd : cfg.ticksize ∣ cfg.min_price) :
    cfg.min_price ≤ nearest_tick cfg p := by
  obtain ⟨k, hk⟩ := hd
  have hfd : Int.fdiv cfg.min_price cfg.ticksize = k := by
    rw [hk, Int.mul_fdiv_cancel_left _ (by omega : cfg.ticksize ≠ 0)]
  have hmono : Int.fdiv cfg.min_price cfg.ticksize ≤
      Int.fdiv (max p cfg.min_price) cfg.ticksize := by
    rw [Int.fdiv_eq_ediv _ (le_of_lt ht), Int.fdiv_eq_ediv _ (le_of_lt ht)]
    exact Int.ediv_le_ediv ht (le_max_right _ _)
  have hk' : k ≤ pyRound (max p cfg.min_price) cfg.ticksize :=
    le_trans (le_trans (le_of_eq hfd.symm) hmono) (pyRound_ge_fdiv _ _)
  calc cfg.min_price = k * cfg.ticksize := by rw [hk]; ring
    _ ≤ pyRound (max p cfg.min_price) cfg.ticksize * cfg.ticksize :=
        mul_le_mul_of_nonneg_right hk' (le_of_lt ht)
    _ = nearest_tick cfg p := rfl

/-- C1 counterexample: with tick size 8 and minimum price 10 (both positive,
tick size nonzero), `nearest_tick(10)` rounds `10 / 8 = 1.25` down to `1`
tick, giving `8`, which is strictly below the configured minimum price.  So
the claim "for every tick size `t > 0` and minimum price `m` the result is
at least `m`" is false as stated. -/
theorem C1_counterexample :
    0 < cfgC1.ticksize ∧ nearest_tick cfgC1 10 = 8 ∧
      ¬ cfgC1.min_price ≤ nearest_tick cfgC1 10 := by
  refine ⟨by decide, by decide, by decide⟩

/-- C1 (amended): for every price `p`, every configuration with tick size
`t > 0`, `nearest_tick(p)` is an integer multiple of `t`; it is at least the
configured minimum price `m` provided `m` is itself a multiple of `t` (as in
the default configuration `m = 10`, `t = 10`).  Without that proviso the
rounding step can land one tick below `m`. -/
theorem C1_nearest_tick (cfg : Config) (p : ℤ) (ht : 0 < cfg.ticksize) :
    cfg.ticksize ∣ nearest_tick cfg p ∧
      (cfg.ticksize ∣ cfg.min_price → cfg.min_price ≤ nearest_tick cfg p) :=
  ⟨nearest_tick_dvd cfg p, fun hd => nearest_tick_ge_min cfg p ht hd⟩

/-- C1 witness: the amended theorem applied at the default configuration and
price 95 (which rounds up to 100 ≥ 10). -/
theorem C1_witness :
    cfgD.ticksize ∣ nearest_tick cfgD 95 ∧ cfgD.min_price ≤ nearest_tick cfgD 95 :=
  ⟨(C1_nearest_tick cfgD 95 (by decide)).1,
    (C1_nearest_tick cfgD 95 (by decide)).2 (by decide)⟩

/-- One order dict of the source.  Market-order dicts carry no `"price"` key
and it is never read for them; the embedding keeps a defaulted `price` field
(0) so that one type covers both kinds.  `log` is the optional tag
(`order.get("log")`, default `None`), `persistent` is
`order.get("persistent", False)`. -/
structure Order where
  side : Side
  otype : OType
  quantity : ℤ
  price : ℤ := 0
  log : Option String := Option.none
  persistent : Bool := false
deriving DecidableEq, Repr

/-- One value of the `defaultdict` in `aggregate_orders`:
`{"quantity": 0, "log": None, "persistent": False}`. -/
structure AggData where
  quantity : ℤ := 0
  log : Option String := Option.none
  persistent : Bool := false
deriving DecidableEq, Repr

/-- Python truthiness of the optional `log` value (`if log_flag:`): `None`
and the empty string are falsy. -/
def truthyLog : Option String → Bool
  | Option.none => false
  | Option.some s => !(s == "")

/-- The net effect of the three per-order statements in the loop body of
`aggregate_orders` (source lines 59-63 / 68-72) on one dict entry:
`quantity += q`, `if log_flag: log = log_flag`, `if persistent: persistent =
True`. -/
def updEntry (o : Order) (d : AggData) : AggData :=
  { quantity := d.quantity + o.quantity
    log := if truthyLog o.log then o.log else d.log
    persistent := d.persistent || o.persistent }

/-- Lookup in an insertion-ordered association list (a Python dict). -/
def assocFind {K : Type} [DecidableEq K] (k : K) :
    List (K × AggData) → Option AggData
  | [] => Option.none
  | (k1, d) :: rest => if k = k1 then Option.some d else assocFind k rest

/-- Update-or-append on an insertion-ordered association list: exactly how a
`defaultdict` entry access behaves (a fresh key is appended at the end with
the default value, an existing key is updated in place). -/
def upsert {K : Type} [DecidableEq K] (k : K) (f : AggData → AggData) :
    List (K × AggData) → List (K × AggData)
  | [] => [(k, f {})]
  | (k1, d) :: rest =>
      if k = k1 then (k1, f d) :: rest else (k1, d) :: upsert k f rest

/-- One iteration of the loop of `aggregate_orders` (source lines 49-72):
market orders are keyed by side, limit orders by (side, price). -/
def aggStep (acc : List (Side × AggData) × List ((Side × ℤ) × AggData))
    (o : Order) : List (Side × AggData) × List ((Side × ℤ) × AggData) :=
  match o.otype with
  | OType.market => (upsert o.side (updEntry o) acc.1, acc.2)
  | OType.limit => (acc.1, upsert (o.side, o.price) (updEntry o) acc.2)

/-- `aggregate_orders` (source lines 44-98): fold the intents into the two
keyed dicts, then emit the market groups followed by the limit groups, in
insertion order. -/
def aggregate_orders (orders : List Order) : List Order :=
  let maps := orders.foldl aggStep ([], [])
  maps.1.map (fun e =>
    { side := e.1, otype := OType.market, quantity := e.2.quantity,
      log := e.2.log, persistent := e.2.persistent })
  ++ maps.2.map (fun e =>
    { side := e.1.1, otype := OType.limit, price := e.1.2,
      quantity := e.2.quantity, log := e.2.log, persistent := e.2.persistent })

/-- The input intents that share a given market key (side). -/
def mFilter (s : Side) (orders : List Order) : List Order :=
  orders.filter (fun o => o.otype == OType.market && o.side == s)

/-- The input intents that share a given limit key (side, price). -/
def lFilter (s : Side) (px : ℤ) (orders : List Order) : List Order :=
  orders.filter (fun o => o.otype == OType.limit && o.side == s && o.price == px)

/-- The spec's "value set by the last merged intent that set a non-empty
value" for the tag: the tag of the last group member whose tag is truthy,
none when no member set one. -/
def lastNonEmptyLog (grp : List Order) : Option String :=
  match (grp.filter (fun o => truthyLog o.log)).getLast? with
  | Option.some o => o.log
  | Option.none => Option.none

lemma assocFind_upsert_self {K : Type} [DecidableEq K] (k : K)
    (f : AggData → AggData) (l : List (K × AggData)) :
    assocFind k (upsert k f l) = Option.some (f ((assocFind k l).getD {})) := by
  induction l with
  | nil => simp [assocFind, upsert]
  | cons e rest ih =>
      obtain ⟨k1, d⟩ := e
      by_cases h : k = k1 <;> simp [assocFind, upsert, h, ih]

lemma assocFind_upsert_other {K : Type} [DecidableEq K] {k k' : K}
    (h : k' ≠ k) (f : AggData → AggData) (l : List (K × AggData)) :
    assocFind k' (upsert k f l) = assocFind k' l := by
  induction l with
  | nil => simp [assocFind, upsert, h]
  | cons e rest ih =>
      obtain ⟨k1, d⟩ := e
      by_cases h1 : k = k1
      · subst h1
        simp [assocFind, upsert, h]
      · by_cases h2 : k' = k1 <;> simp [assocFind, upsert, h1, h2, ih]

lemma assocFind_isSome_iff {K : Type} [DecidableEq K] (k : K)
    (l : List (K × AggData)) :
    (assocFind k l).isSome = true ↔ k ∈ l.map Prod.fst := by
  induction l with
  | nil => simp [assocFind]
  | cons e rest ih =>
      obtain ⟨k1, d⟩ := e
      by_cases h : k = k1 <;> simp [assocFind, h, ih]

lemma upsert_keys {K : Type} [DecidableEq K] (k : K) (f : AggData → AggData)
    (l : List (K × AggData)) :
    (upsert k f l).map Prod.fst =
      if (assocFind k l).isSome then l.map Prod.fst
      else l.map Prod.fst ++ [k] := by
  induction l with
  | nil => simp [assocFind, upsert]
  | cons e rest ih =>
      obtain ⟨k1, d⟩ := e
      by_cases h : k = k1
      · simp [assocFind, upsert, h]
      · simp only [upsert, if_neg h, List.map_cons, assocFind]
        rw [ih]
        split_ifs <;> simp

lemma upsert_nodup {K : Type} [DecidableEq K] (k : K) (f : AggData → AggData)
    (l : List (K × AggData)) (h : (l.map Prod.fst).Nodup) :
    ((upsert k f l).map Prod.fst).Nodup := by
  rw [upsert_keys]
  split_ifs with hs
  · exact h
  · rw [List.nodup_append]
    refine ⟨h, List.nodup_singleton _, ?_⟩
    intro x hx hxk
    rw [List.mem_singleton] at hxk
    subst hxk
    rw [← assocFind_isSome_iff] at hx
    simp [hx] at hs

lemma assocFind_of_mem {K : Type} [DecidableEq K] {k : K} {d : AggData}
    {l : List (K × AggData)} (h : (l.map Prod.fst).Nodup) (hm : (k, d) ∈ l) :
    assocFind k l = Option.some d := by
  induction l with
  | nil => cases hm
  | cons e rest ih =>
      obtain ⟨k1, d1⟩ := e
      rw [List.map_cons, List.nodup_cons] at h
      rcases List.mem_cons.mp hm with he | hrest
      · obtain ⟨rfl, rfl⟩ := Prod.mk.injEq .. ▸ he
        · simp [assocFind]
      · have hk : k ≠ k1 := by
          rintro rfl
          exact h.1 (List.mem_map.mpr ⟨(k, d), hrest, rfl⟩)
        simp [assocFind, hk, ih h.2 hrest]

lemma fold_keys_nodup (orders : List Order) :
    ∀ acc : List (Side × AggData) × List ((Side × ℤ) × AggData),
      (acc.1.map Prod.fst).Nodup → (acc.2.map Prod.fst).Nodup →
      ((orders.foldl aggStep acc).1.map Prod.fst).Nodup ∧
        ((orders.foldl aggStep acc).2.map Prod.fst).Nodup := by
  induction orders with
  | nil => exact fun acc h1 h2 => ⟨h1, h2⟩
  | cons o rest ih =>
      intro acc h1 h2
      rw [List.foldl_cons]
      cases ho : o.otype
      · exact ih _ (by simp [aggStep, ho, upsert_nodup _ _ _ h1]) (by simp [aggStep, ho, h2])
      · exact ih _ (by simp [aggStep, ho, h1]) (by simp [aggStep, ho, upsert_nodup _ _ _ h2])

lemma market_fold (orders : List Order) :
    ∀ (acc : List (Side × AggData) × List ((Side × ℤ) × AggData)) (s : Side),
      assocFind s (orders.foldl aggStep acc).1 =
        if (assocFind s acc.1).isSome ∨ mFilter s orders ≠ [] then
          Option.some ((mFilter s orders).foldl (fun d o => updEntry o d)
            ((assocFind s acc.1).getD {}))
        else Option.none := by
  induction orders with
  | nil =>
      intro acc s
      cases h : assocFind s acc.1 <;> simp [mFilter, h]
  | cons o rest ih =>
      intro acc s
      rw [List.foldl_cons, ih]
      cases ho : o.otype
      · by_cases hs : o.side = s
        · have hstep : (aggStep acc o).1 = upsert s (updEntry o) acc.1 := by
            simp [aggStep, ho, hs]
          have hfilter : mFilter s (o :: rest) = o :: mFilter s rest := by
            simp [mFilter, List.filter_cons, ho, hs]
          rw [hstep, assocFind_upsert_self, hfilter]
          cases h : assocFind s acc.1 <;> simp
        · have hstep : (aggStep acc o).1 = upsert o.side (updEntry o) acc.1 := by
            simp [aggStep, ho]
          have hfilter : mFilter s (o :: rest) = mFilter s rest := by
            simp [mFilter, List.filter_cons, ho, hs]
          rw [hstep, assocFind_upsert_other (fun h => hs h.symm), hfilter]
      · have hstep : (aggStep acc o).1 = acc.1 := by simp [aggStep, ho]
        have hfilter : mFilter s (o :: rest) = mFilter s rest := by
          simp [mFilter, List.filter_cons, ho]
        rw [hstep, hfilter]

lemma limit_fold (orders : List Order) :
    ∀ (acc : List (Side × AggData) × List ((Side × ℤ) × AggData))
      (s : Side) (px : ℤ),
      assocFind (s, px) (orders.foldl aggStep acc).2 =
        if (assocFind (s, px) acc.2).isSome ∨ lFilter s px orders ≠ [] then
          Option.some ((lFilter s px orders).foldl (fun d o => updEntry o d)
            ((assocFind (s, px) acc.2).getD {}))
        else Option.none := by
  induction orders with
  | nil =>
      intro acc s px
      cases h : assocFind (s, px) acc.2 <;> simp [lFilter, h]
  | cons o rest ih =>
      intro acc s px
      rw [List.foldl_cons, ih]
      cases ho : o.otype
      · have hstep : (aggStep acc o).2 = acc.2 := by simp [aggStep, ho]
        have hfilter : lFilter s px (o :: rest) = lFilter s px rest := by
          simp [lFilter, List.filter_cons, ho]
        rw [hstep, hfilter]
      · by_cases hs : o.side = s ∧ o.price = px
        · have hstep : (aggStep acc o).2 = upsert (s, px) (updEntry o) acc.2 := by
            simp [aggStep, ho, hs.1, hs.2]
          have hfilter : lFilter s px (o :: rest) = o :: lFilter s px rest := by
            simp [lFilter, List.filter_cons, ho, hs.1, hs.2]
          rw [hstep, assocFind_upsert_self, hfilter]
          cases h : assocFind (s, px) acc.2 <;> simp
        · have hkey : (s, px) ≠ (o.side, o.price) := by
            intro h
            exact hs ⟨(Prod.mk.injEq .. ▸ h).1.symm, (Prod.mk.injEq .. ▸ h).2.symm⟩
          have hstep : (aggStep acc o).2 = upsert (o.side, o.price) (updEntry o) acc.2 := by
            simp [aggStep, ho]
          have hfilter : lFilter s px (o :: rest) = lFilter s px rest := by
            rcases Decidable.not_and_iff_or_not.mp hs with h1 | h1 <;>
              simp [lFilter, List.filter_cons, ho, h1]
          rw [hstep, assocFind_upsert_other hkey, hfilter]

lemma foldl_upd_quantity (grp : List Order) :
    ∀ d0 : AggData,
      (grp.foldl (fun d o => updEntry o d) d0).quantity =
        d0.quantity + (grp.map (fun o => o.quantity)).sum := by
  induction grp with
  | nil => intro d0; simp
  | cons o rest ih =>
      intro d0
      rw [List.foldl_cons, ih]
      simp [updEntry]
      ring

lemma foldl_upd_persistent (grp : List Order) :
    ∀ d0 : AggData,
      (grp.foldl (fun d o => updEntry o d) d0).persistent =
        (d0.persistent || grp.any (fun o => o.persistent)) := by
  induction grp with
  | nil => intro d0; simp
  | cons o rest ih =>
      intro d0
      rw [List.foldl_cons, ih]
      simp [updEntry, Bool.or_assoc]

lemma foldl_upd_log (grp : List Order) :
    ∀ d0 : AggData,
      (grp.foldl (fun d o => updEntry o d) d0).log =
        (match (grp.filter (fun o => truthyLog o.log)).getLast? with
          | Option.some o => o.log
          | Option.none => d0.log) := by
  induction grp using List.reverseRecOn with
  | nil => intro d0; simp
  | append_singleton xs x ih =>
      intro d0
      rw [List.foldl_append, List.foldl_cons, List.foldl_nil, List.filter_append]
      by_cases hx : truthyLog x.log
      · simp [updEntry, hx, List.getLast?_concat]
      · have h1 : List.filter (fun o => truthyLog o.log) [x] = [] := by
          simp [hx]
        rw [h1, List.append_nil]
        have h2 : (updEntry x (List.foldl (fun d o => updEntry o d) d0 xs)).log =
            (List.foldl (fun d o => updEntry o d) d0 xs).log := by
          simp [updEntry, hx]
        rw [h2, ih d0]

/-- From membership in the aggregated output to the corresponding keyed
entry of the fold (the keys of both dicts are unique). -/
lemma mem_aggregate {orders : List Order} {a : Order}
    (ha : a ∈ aggregate_orders orders) :
    (a.otype = OType.market ∧
      assocFind a.side (orders.foldl aggStep ([], [])).1 =
        Option.some ⟨a.quantity, a.log, a.persistent⟩) ∨
    (a.otype = OType.limit ∧
      assocFind (a.side, a.price) (orders.foldl aggStep ([], [])).2 =
        Option.some ⟨a.quantity, a.log, a.persistent⟩) := by
  have hnd := fold_keys_nodup orders ([], []) (by simp) (by simp)
  unfold aggregate_orders at ha
  rcases List.mem_append.mp ha with hm | hm
  · left
    obtain ⟨e, he, rfl⟩ := List.mem_map.mp hm
    exact ⟨rfl, assocFind_of_mem hnd.1 he⟩
  · right
    obtain ⟨e, he, rfl⟩ := List.mem_map.mp hm
    exact ⟨rfl, assocFind_of_mem hnd.2 he⟩

/-- C3: for every input list of intents, every aggregated order's quantity is
the sum of the quantities of the input intents sharing its key (side for
market orders, side and price for limit orders), and its persistent flag is
true iff at least one of those intents was persistent. -/
theorem C3_aggregate_sums (orders : List Order) (s : Side) (px : ℤ)
    (a : Order) (ha : a ∈ aggregate_orders orders) :
    (a.otype = OType.market → a.side = s →
      a.quantity = ((mFilter s orders).map (fun o => o.quantity)).sum ∧
      (a.persistent = true ↔ ∃ o ∈ mFilter s orders, o.persistent = true)) ∧
    (a.otype = OType.limit → a.side = s → a.price = px →
      a.quantity = ((lFilter s px orders).map (fun o => o.quantity)).sum ∧
      (a.persistent = true ↔ ∃ o ∈ lFilter s px orders, o.persistent = true)) := by
  constructor
  · intro hm hside
    rcases mem_aggregate ha with ⟨_, hfind⟩ | ⟨hl, _⟩
    · subst hside
      rw [market_fold orders ([], []) a.side] at hfind
      simp only [assocFind] at hfind
      by_cases hne : mFilter a.side orders ≠ []
      · rw [if_pos (Or.inr hne)] at hfind
        have := Option.some.injEq .. ▸ hfind
        have hq := congrArg AggData.quantity this.symm
        have hp := congrArg AggData.persistent this.symm
        rw [foldl_upd_quantity] at hq
        rw [foldl_upd_persistent] at hp
        simp only [Option.getD] at hq hp
        refine ⟨by simpa using hq, ?_⟩
        rw [hp]
        simp [List.any_eq_true]
      · rw [if_neg (by simpa using hne)] at hfind
        cases hfind
    · rw [hm] at hl
      cases hl
  · intro hm hside hpx
    rcases mem_aggregate ha with ⟨hl, _⟩ | ⟨_, hfind⟩
    · rw [hm] at hl
      cases hl
    · subst hside
      subst hpx
      rw [limit_fold orders ([], []) a.side a.price] at hfind
      simp only [assocFind] at hfind
      by_cases hne : lFilter a.side a.price orders ≠ []
      · rw [if_pos (Or.inr hne)] at hfind
        have := Option.some.injEq .. ▸ hfind
        have hq := congrArg AggData.quantity this.symm
        have hp := congrArg AggData.persistent this.symm
        rw [foldl_upd_quantity] at hq
        rw [foldl_upd_persistent] at hp
        simp only [Option.getD] at hq hp
        refine ⟨by simpa using hq, ?_⟩
        rw [hp]
        simp [List.any_eq_true]
      · rw [if_neg (by simpa using hne)] at hfind
        cases hfind

/-- C6: for every input list of intents and every aggregation key, the
aggregated order's tag (the `log` field; the source's intents carry no
`expireAfterSeconds` field, expiry is decided at submission time) equals the
tag of the last merged intent that set a non-empty value, in insertion
order: an explicit last-write-wins policy, never a merge or an error. -/
theorem C6_tag_last_write_wins (orders : List Order) (s : Side) (px : ℤ)
    (a : Order) (ha : a ∈ aggregate_orders orders) :
    (a.otype = OType.market → a.side = s →
      a.log = lastNonEmptyLog (mFilter s orders)) ∧
    (a.otype = OType.limit → a.side = s → a.price = px →
      a.log = lastNonEmptyLog (lFilter s px orders)) := by
  constructor
  · intro hm hside
    rcases mem_aggregate ha with ⟨_, hfind⟩ | ⟨hl, _⟩
    · subst hside
      rw [market_fold orders ([], []) a.side] at hfind
      simp only [assocFind] at hfind
      by_cases hne : mFilter a.side orders ≠ []
      · rw [if_pos (Or.inr hne)] at hfind
        have := Option.some.injEq .. ▸ hfind
        have hlg := congrArg AggData.log this.symm
        rw [foldl_upd_log] at hlg
        simpa [lastNonEmptyLog] using hlg
      · rw [if_neg (by simpa using hne)] at hfind
        cases hfind
    · rw [hm] at hl
      cases hl
  · intro hm hside hpx
    rcases mem_aggregate ha with ⟨hl, _⟩ | ⟨_, hfind⟩
    · rw [hm] at hl
      cases hl
    · subst hside
      subst hpx
      rw [limit_fold orders ([], []) a.side a.price] at hfind
      simp only [assocFind] at hfind
      by_cases hne : lFilter a.side a.price orders ≠ []
      · rw [if_pos (Or.inr hne)] at hfind
        have := Option.some.injEq .. ▸ hfind
        have hlg := congrArg AggData.log this.symm
        rw [foldl_upd_log] at hlg
        simpa [lastNonEmptyLog] using hlg
      · rw [if_neg (by simpa using hne)] at hfind
        cases hfind

/-- The spec's aggregation scenario: two buy-limit intents at price 100 with
quantities 5 and 7, the second tagged `"W"`. -/
def demoIntents : List Order :=
  [{ side := Side.buy, otype := OType.limit, price := 100, quantity := 5 },
   { side := Side.buy, otype := OType.limit, price := 100, quantity := 7,
     log := Option.some "W" }]

/-- The aggregated order of the scenario: quantity 12, tag `"W"`. -/
def demoAgg : Order :=
  { side := Side.buy, otype := OType.limit, price := 100, quantity := 12,
    log := Option.some "W" }

/-- C3 witness: the scenario's aggregated quantity equals the group sum. -/
theorem C3_witness :
    demoAgg.quantity =
        ((lFilter Side.buy 100 demoIntents).map (fun o => o.quantity)).sum ∧
      (demoAgg.persistent = true ↔
        ∃ o ∈ lFilter Side.buy 100 demoIntents, o.persistent = true) :=
  (C3_aggregate_sums demoIntents Side.buy 100 demoAgg (by decide)).2 rfl rfl rfl

/-- C6 witness: the scenario's aggregated tag is the last non-empty tag. -/
theorem C6_witness :
    demoAgg.log = lastNonEmptyLog (lFilter Side.buy 100 demoIntents) :=
  (C6_tag_last_write_wins demoIntents Side.buy 100 demoAgg (by decide)).2 rfl rfl rfl

lemma upsert_qsum {K : Type} [DecidableEq K] (k : K) (o : Order)
    (l : List (K × AggData)) :
    ((upsert k (updEntry o) l).map (fun e => e.2.quantity)).sum =
      (l.map (fun e => e.2.quantity)).sum + o.quantity := by
  induction l with
  | nil => simp [upsert, updEntry]
  | cons e rest ih =>
      obtain ⟨k1, d⟩ := e
      by_cases h : k = k1
      · simp [upsert, h, updEntry]
        ring
      · simp [upsert, h, ih]
        ring

lemma fold_qsum (orders : List Order) :
    ∀ acc : List (Side × AggData) × List ((Side × ℤ) × AggData),
      ((orders.foldl aggStep acc).1.map (fun e => e.2.quantity)).sum +
        ((orders.foldl aggStep acc).2.map (fun e => e.2.quantity)).sum =
      (acc.1.map (fun e => e.2.quantity)).sum +
        (acc.2.map (fun e => e.2.quantity)).sum +
        (orders.map (fun o => o.quantity)).sum := by
  induction orders with
  | nil => intro acc; simp
  | cons o rest ih =>
      intro acc
      rw [List.foldl_cons, ih]
      cases ho : o.otype
      · have h1 : (aggStep acc o).1 = upsert o.side (updEntry o) acc.1 := by
          simp [aggStep, ho]
        have h2 : (aggStep acc o).2 = acc.2 := by simp [aggStep, ho]
        rw [h1, h2, upsert_qsum]
        simp
        ring
      · have h1 : (aggStep acc o).1 = acc.1 := by simp [aggStep, ho]
        have h2 : (aggStep acc o).2 = upsert (o.side, o.price) (updEntry o) acc.2 := by
          simp [aggStep, ho]
        rw [h1, h2, upsert_qsum]
        simp
        ring

/-- C10: aggregation conserves total quantity: the sum of the quantities of
the aggregated orders equals the sum of the quantities of the input
intents. -/
theorem C10_quantity_conserved (orders : List Order) :
    ((aggregate_orders orders).map (fun o => o.quantity)).sum =
      (orders.map (fun o => o.quantity)).sum := by
  unfold aggregate_orders
  rw [List.map_append, List.sum_append, List.map_map, List.map_map]
  have := fold_qsum orders ([], [])
  simpa using this

/-- The strength multiplier of the spread filler (source line 285):
`{"strong": 2.4, "medium": 1.5, "weak": 1.1, "none": 1.0}`. -/
def strMultSpread : Strength → ℚ
  | Strength.strong => mkRat 12 5
  | Strength.medium => mkRat 3 2
  | Strength.weak => mkRat 11 10
  | Strength.none => 1

/-- One iteration of the oneway-up loop of `spread_filler_orders` (source
lines 301-305): a buy at the level and a sell 2-8 ticks above it, equal
random quantity scaled by the strength multiplier. -/
def sfUpStep (cfg : Config) (warm : Bool) (sm : ℚ) (acc : List Order × Rng)
    (px : ℤ) : List Order × Rng :=
  let r1 := randint 750 1500 acc.2
  let qty := ratTrunc (qmul (mkRat r1.1 1) sm)
  let r2 := randint 2 8 r1.2
  (acc.1 ++
    [{ side := Side.buy, otype := OType.limit, price := px, quantity := qty,
       persistent := warm },
     { side := Side.sell, otype := OType.limit, price := px + r2.1 * cfg.ticksize,
       quantity := qty, persistent := warm }], r2.2)

/-- One iteration of the oneway-down loop of `spread_filler_orders` (source
lines 307-311). -/
def sfDownStep (cfg : Config) (warm : Bool) (sm : ℚ) (acc : List Order × Rng)
    (px : ℤ) : List Order × Rng :=
  let r1 := randint 750 1500 acc.2
  let qty := ratTrunc (qmul (mkRat r1.1 1) sm)
  let r2 := randint 2 8 r1.2
  (acc.1 ++
    [{ side := Side.sell, otype := OType.limit, price := px, quantity := qty,
       persistent := warm },
     { side := Side.buy, otype := OType.limit, price := px - r2.1 * cfg.ticksize,
       quantity := qty, persistent := warm }], r2.2)

/-- One iteration of the neutral loop of `spread_filler_orders` (source
lines 313-320): note the source draws `randint(750, 1500)` first and then,
during warmup, overwrites it with a second draw `randint(2400, 5000)`. -/
def sfNeutralStep (cfg : Config) (warm : Bool) (sm : ℚ) (acc : List Order × Rng)
    (px : ℤ) : List Order × Rng :=
  let r1 := randint 750 1500 acc.2
  let r2 := if warm then randint 2400 5000 r1.2 else r1
  let qty := ratTrunc (qmul (mkRat r2.1 1) sm)
  let r3 := rchoice [Side.buy, Side.sell] Side.buy r2.2
  (acc.1 ++
    [{ side := r3.1, otype := OType.limit, price := px, quantity := qty,
       persistent := warm }], r3.2)

/-- `UltraFastMarketBot.spread_filler_orders` (source lines 282-321). -/
def spread_filler_orders (cfg : Config) (st : BotState) (now : ℚ)
    (best_bid best_ask : ℤ) (g : Rng) : List Order × Rng :=
  let spread := best_ask - best_bid
  let sm := strMultSpread st.oneway_strength
  let warm := is_warmup_period cfg st now
  let threshold := if warm then 5 else cfg.spread_filler_threshold
  if cfg.ticksize * threshold ≤ spread then
    let n_orders :=
      if warm then min (max (Int.fdiv spread cfg.ticksize - 1) 8) 30
      else min (max (Int.fdiv spread cfg.ticksize - 1) 2) 14
    let px_list := (List.range' 1 (n_orders - 1).toNat).map
      (fun i : ℕ => best_bid + (i : ℤ) * cfg.ticksize)
    if st.market_mode = Mode.oneway_up then
      px_list.foldl (sfUpStep cfg warm sm) ([], g)
    else if st.market_mode = Mode.oneway_down then
      px_list.foldl (sfDownStep cfg warm sm) ([], g)
    else
      px_list.foldl (sfNeutralStep cfg warm sm) ([], g)
  else ([], g)

/-- The default bot state: neutral mode, no strength, market-open timestamp
unknown (so not in warmup). -/
def stN : BotState := {}

/-- C7: the spread filler emits orders only when
`best_ask - best_bid ≥ threshold × tickSize`, where the threshold is 5
during warmup and the configured threshold otherwise; below the threshold it
emits the empty list (and consumes no randomness). -/
theorem C7_spread_filler_threshold (cfg : Config) (st : BotState) (now : ℚ)
    (best_bid best_ask : ℤ) (g : Rng)
    (h : best_ask - best_bid <
      cfg.ticksize *
        (if is_warmup_period cfg st now then 5 else cfg.spread_filler_threshold)) :
    spread_filler_orders cfg st now best_bid best_ask g = ([], g) := by
  unfold spread_filler_orders
  exact if_neg (not_le.mpr h)

/-- C7 witness: default configuration, not warmup, spread 50 below the
threshold 100: no orders. -/
theorem C7_witness :
    (spread_filler_orders cfgD stN 0 100 150 rng0).1 = [] := by
  rw [C7_spread_filler_threshold cfgD stN 0 100 150 rng0 (by decide)]

lemma sfNeutral_prices (cfg : Config) (warm : Bool) (sm : ℚ) (pxl : List ℤ) :
    ∀ (os : List Order) (g : Rng),
      ((pxl.foldl (sfNeutralStep cfg warm sm) (os, g)).1.map (fun o => o.price)) =
        os.map (fun o => o.price) ++ pxl := by
  induction pxl with
  | nil => intro os g; simp
  | cons px rest ih =>
      intro os g
      rw [List.foldl_cons]
      show ((rest.foldl (sfNeutralStep cfg warm sm)
        (sfNeutralStep cfg warm sm (os, g) px)).1.map (fun o => o.price)) = _
      rw [show sfNeutralStep cfg warm sm (os, g) px =
        ((sfNeutralStep cfg warm sm (os, g) px).1,
         (sfNeutralStep cfg warm sm (os, g) px).2) from rfl]
      rw [ih]
      simp [sfNeutralStep]

lemma sfUp_prices (cfg : Config) (warm : Bool) (sm : ℚ) (pxl : List ℤ) :
    ∀ (os : List Order) (g : Rng),
      (((pxl.foldl (sfUpStep cfg warm sm) (os, g)).1.filter
          (fun o => o.side == Side.buy)).map (fun o => o.price)) =
        ((os.filter (fun o => o.side == Side.buy)).map (fun o => o.price)) ++ pxl ∧
      (pxl.foldl (sfUpStep cfg warm sm) (os, g)).1.length =
        os.length + 2 * pxl.length := by
  induction pxl with
  | nil => intro os g; simp
  | cons px rest ih =>
      intro os g
      rw [List.foldl_cons]
      rw [show sfUpStep cfg warm sm (os, g) px =
        ((sfUpStep cfg warm sm (os, g) px).1,
         (sfUpStep cfg warm sm (os, g) px).2) from rfl]
      obtain ⟨ih1, ih2⟩ := ih (sfUpStep cfg warm sm (os, g) px).1
        (sfUpStep cfg warm sm (os, g) px).2
      constructor
      · rw [ih1]
        simp [sfUpStep, List.filter_append]
      · rw [ih2]
        simp [sfUpStep]
        omega

lemma sfDown_prices (cfg : Config) (warm : Bool) (sm : ℚ) (pxl : List ℤ) :
    ∀ (os : List Order) (g : Rng),
      (((pxl.foldl (sfDownStep cfg warm sm) (os, g)).1.filter
          (fun o => o.side == Side.sell)).map (fun o => o.price)) =
        ((os.filter (fun o => o.side == Side.sell)).map (fun o => o.price)) ++ pxl ∧
      (pxl.foldl (sfDownStep cfg warm sm) (os, g)).1.length =
        os.length + 2 * pxl.length := by
  induction pxl with
  | nil => intro os g; simp
  | cons px rest ih =>
      intro os g
      rw [List.foldl_cons]
      rw [show sfDownStep cfg warm sm (os, g) px =
        ((sfDownStep cfg warm sm (os, g) px).1,
         (sfDownStep cfg warm sm (os, g) px).2) from rfl]
      obtain ⟨ih1, ih2⟩ := ih (sfDownStep cfg warm sm (os, g) px).1
        (sfDownStep cfg warm sm (os, g) px).2
      constructor
      · rw [ih1]
        simp [sfDownStep, List.filter_append]
      · rw [ih2]
        simp [sfDownStep]
        omega

/-- The price-level list of the spread filler when it triggers (source lines
292-298): `best_bid + i * tickSize` for `i in range(1, n_orders)` with
`n_orders = min(max(spread // tickSize - 1, 2), 14)` normally and
`n_orders = min(max(spread // tickSize - 1, 8), 30)` during warmup. -/
def sfLevels (cfg : Config) (warm : Bool) (best_bid best_ask : ℤ) : List ℤ :=
  let n_orders :=
    if warm then min (max (Int.fdiv (best_ask - best_bid) cfg.ticksize - 1) 8) 30
    else min (max (Int.fdiv (best_ask - best_bid) cfg.ticksize - 1) 2) 14
  (List.range' 1 (n_orders - 1).toNat).map
    (fun i : ℕ => best_bid + (i : ℤ) * cfg.ticksize)

/-- The warmup state used by concrete evaluations: market opened at time 0
(so tick time 0 is inside the warmup window). -/
def stW : BotState := { market_opened_at := Option.some 0 }

/-- C8 counterexample, two instances.  (a) Default configuration (tick 10,
threshold 10), neutral mode, not warmup, best bid 100 / best ask 200: the
claim predicts orders at each tick level strictly between bid and ask, the
nine levels 110..190; the code computes `n_orders = min(max(spread//tick -
1, 2), 14) = 9` but quotes `best_bid + i*tick` only for `i in range(1,
n_orders)`: the eight levels 110..180, never 190, so a spread of k ticks
yields k-2 levels, not k-1.  (b) During warmup (market opened at time 0),
best bid 100 / best ask 150 (5 ticks, warmup threshold 5): the code takes
`n_orders = min(max(4, 8), 30) = 8` and quotes 110..170 - the levels 150,
160 and 170 are at or above the ask, not strictly between bid and ask. -/
theorem C8_counterexample :
    (((spread_filler_orders cfgD stN 0 100 200 rng0).1.map (fun o => o.price) =
        [110, 120, 130, 140, 150, 160, 170, 180]) ∧
      ¬ ((190 : ℤ) ∈
          (spread_filler_orders cfgD stN 0 100 200 rng0).1.map (fun o => o.price))) ∧
    ((spread_filler_orders cfgD stW 0 100 150 rng0).1.map (fun o => o.price) =
      [110, 120, 130, 140, 150, 160, 170]) := by
  refine ⟨⟨by decide, by decide⟩, by decide⟩

/-- C8 (amended): whenever the spread filler triggers - in any mode, warmup
or not - its quoted levels are `sfLevels`: `best_bid + i × tickSize` for
`i = 1 .. n_orders - 1`, with `n_orders = min(max(spread // tickSize - 1,
2), 14)` normally and `min(max(spread // tickSize - 1, 8), 30)` during
warmup, so at most 13 levels normally and at most 29 during warmup, one
fewer than `n_orders` and omitting the tick level just below the ask
(during warmup levels can even lie at or above the ask).  In neutral mode
one order is placed per level; in a trending mode two orders per level, the
pressured-side order exactly at the level (plus a counter-side order offset
beyond it). -/
theorem C8_spread_filler_levels (cfg : Config) (st : BotState) (now : ℚ)
    (best_bid best_ask : ℤ) (g : Rng)
    (htrig : cfg.ticksize *
        (if is_warmup_period cfg st now then 5 else cfg.spread_filler_threshold) ≤
      best_ask - best_bid) :
    (st.market_mode = Mode.neutral →
      ((spread_filler_orders cfg st now best_bid best_ask g).1.map (fun o => o.price)) =
        sfLevels cfg (is_warmup_period cfg st now) best_bid best_ask) ∧
    (st.market_mode = Mode.oneway_up →
      (((spread_filler_orders cfg st now best_bid best_ask g).1.filter
          (fun o => o.side == Side.buy)).map (fun o => o.price)) =
        sfLevels cfg (is_warmup_period cfg st now) best_bid best_ask ∧
      (spread_filler_orders cfg st now best_bid best_ask g).1.length =
        2 * (sfLevels cfg (is_warmup_period cfg st now) best_bid best_ask).length) ∧
    (st.market_mode = Mode.oneway_down →
      (((spread_filler_orders cfg st now best_bid best_ask g).1.filter
          (fun o => o.side == Side.sell)).map (fun o => o.price)) =
        sfLevels cfg (is_warmup_period cfg st now) best_bid best_ask ∧
      (spread_filler_orders cfg st now best_bid best_ask g).1.length =
        2 * (sfLevels cfg (is_warmup_period cfg st now) best_bid best_ask).length) ∧
    (sfLevels cfg false best_bid best_ask).length ≤ 13 ∧
    (sfLevels cfg true best_bid best_ask).length ≤ 29 := by
  have hneutral : st.market_mode = Mode.neutral →
      spread_filler_orders cfg st now best_bid best_ask g =
        (sfLevels cfg (is_warmup_period cfg st now) best_bid best_ask).foldl
          (sfNeutralStep cfg (is_warmup_period cfg st now)
            (strMultSpread st.oneway_strength)) ([], g) := by
    intro hm
    unfold spread_filler_orders sfLevels
    dsimp only
    rw [if_pos htrig, hm,
      if_neg (by decide : ¬ (Mode.neutral = Mode.oneway_up)),
      if_neg (by decide : ¬ (Mode.neutral = Mode.oneway_down))]
  have hup : st.market_mode = Mode.oneway_up →
      spread_filler_orders cfg st now best_bid best_ask g =
        (sfLevels cfg (is_warmup_period cfg st now) best_bid best_ask).foldl
          (sfUpStep cfg (is_warmup_period cfg st now)
            (strMultSpread st.oneway_strength)) ([], g) := by
    intro hm
    unfold spread_filler_orders sfLevels
    dsimp only
    rw [if_pos htrig, hm, if_pos rfl]
  have hdown : st.market_mode = Mode.oneway_down →
      spread_filler_orders cfg st now best_bid best_ask g =
        (sfLevels cfg (is_warmup_period cfg st now) best_bid best_ask).foldl
          (sfDownStep cfg (is_warmup_period cfg st now)
            (strMultSpread st.oneway_strength)) ([], g) := by
    intro hm
    unfold spread_filler_orders sfLevels
    dsimp only
    rw [if_pos htrig, hm,
      if_neg (by decide : ¬ (Mode.oneway_down = Mode.oneway_up)), if_pos rfl]
  refine ⟨?_, ?_, ?_, ?_, ?_⟩
  · intro hm
    rw [hneutral hm, sfNeutral_prices]
    simp
  · intro hm
    obtain ⟨h1, h2⟩ := sfUp_prices cfg (is_warmup_period cfg st now)
      (strMultSpread st.oneway_strength)
      (sfLevels cfg (is_warmup_period cfg st now) best_bid best_ask) [] g
    rw [hup hm]
    constructor
    · rw [h1]
      simp
    · rw [h2]
      simp
  · intro hm
    obtain ⟨h1, h2⟩ := sfDown_prices cfg (is_warmup_period cfg st now)
      (strMultSpread st.oneway_strength)
      (sfLevels cfg (is_warmup_period cfg st now) best_bid best_ask) [] g
    rw [hdown hm]
    constructor
    · rw [h1]
      simp
    · rw [h2]
      simp
  · show (sfLevels cfg false best_bid best_ask).length ≤ 13
    simp only [sfLevels, Bool.false_eq_true, if_false, List.length_map,
      List.length_range']
    omega
  · show (sfLevels cfg true best_bid best_ask).length ≤ 29
    simp only [sfLevels, if_true, List.length_map, List.length_range']
    omega

/-- C8 witness: the amended theorem applied at the first counterexample's
inputs: the neutral-mode levels are `sfLevels` and the non-warmup cap is
13. -/
theorem C8_witness :
    ((spread_filler_orders cfgD stN 0 100 200 rng0).1.map (fun o => o.price)) =
      sfLevels cfgD (is_warmup_period cfgD stN 0) 100 200 ∧
    (sfLevels cfgD false 100 200).length ≤ 13 := by
  have h := C8_spread_filler_levels cfgD stN 0 100 200 rng0 (by decide)
  exact ⟨h.1 rfl, h.2.2.2.1⟩

/-- The gapped-open price computation of `update_session` (source lines
449-454): `nearest_tick(last_close + gap_ticks * ticksize)` clamped to the
minimum price. -/
def gap_open_price (cfg : Config) (last_close gap_ticks : ℤ) : ℤ :=
  let gap_amount := gap_ticks * cfg.ticksize
  let new_price := nearest_tick cfg (last_close + gap_amount)
  max new_price cfg.min_price

/-- The closed→open branch of `update_session` (source lines 444-473): with
probability `GAP_PROBABILITY`, and only when a last close price is known,
draw a tick gap, apply it to the last close, clamp, and adopt the result as
both fallback and last trade price; in all cases record the open time.
(`random.random()` is short-circuited away when no close price is known.) -/
def update_session_open (cfg : Config) (st : BotState) (now : ℚ) (g : Rng) :
    BotState × Rng :=
  match st.last_close_price with
  | Option.some lc =>
      let r1 := randUnit g
      if r1.1 < cfg.gap_probability then
        let r2 := randint cfg.gap_min_ticks cfg.gap_max_ticks r1.2
        let np := gap_open_price cfg lc r2.1
        ({ st with fallback_price := np, last_trade_price := Option.some np,
                   market_opened_at := Option.some now }, r2.2)
      else ({ st with market_opened_at := Option.some now }, r1.2)
  | Option.none => ({ st with market_opened_at := Option.some now }, g)

/-- C4: on a closed→open transition that applies a price gap, the adopted
price is at least the configured minimum price floor, for every drawn gap
magnitude; any transition either keeps the last trade price or adopts one at
least the floor; and in the spec's scenario (last close 1000, gap -2000
ticks, tick size 10) the adopted price is exactly 10. -/
theorem C4_gap_open_floor :
    (∀ (cfg : Config) (lc gt : ℤ), cfg.min_price ≤ gap_open_price cfg lc gt) ∧
    (∀ (cfg : Config) (st : BotState) (now : ℚ) (g : Rng),
      (update_session_open cfg st now g).1.last_trade_price = st.last_trade_price ∨
      ∃ p, (update_session_open cfg st now g).1.last_trade_price = Option.some p ∧
        cfg.min_price ≤ p) ∧
    gap_open_price cfgD 1000 (-2000) = 10 := by
  refine ⟨fun cfg lc gt => le_max_right _ _, ?_, by decide⟩
  intro cfg st now g
  unfold update_session_open
  cases hlc : st.last_close_price with
  | none => exact Or.inl rfl
  | some lc =>
      dsimp only
      by_cases hgap : (randUnit g).1 < cfg.gap_probability
      · rw [if_pos hgap]
        exact Or.inr ⟨_, rfl, le_max_right _ _⟩
      · rw [if_neg hgap]
        exact Or.inl rfl

/-- The fixed delay of `schedule_order_delete` (source lines 593-595):
`asyncio.sleep(600)` before the single best-effort cancel call. -/
def schedule_delete_delay : ℕ := 600

/-- The cancellation-scheduling decision inside `send_order` (source lines
577-586), as a pure function of the submitted order and the order id
extracted from a successful create response
(`result["order"]["order"]["order_id"]`): `some (id, delay)` when a
background cancellation of that id is scheduled `delay` seconds later,
`none` otherwise.  The source's test is `if order_id and not
order.get("persistent", False)` (a falsy empty-string id also schedules
nothing), and the delay is the fixed 600 seconds of
`schedule_order_delete`. -/
def send_order_schedule (o : Order) (resp_id : Option String) :
    Option (String × ℕ) :=
  match resp_id with
  | Option.some oid =>
      if oid ≠ "" ∧ o.persistent = false then
        Option.some (oid, schedule_delete_delay)
      else Option.none
  | Option.none => Option.none

/-- A warmup limit order as `decide_orders` builds them during warmup:
`persistent = True`, no expiry field of any kind. -/
def warmupLimitDemo : Order :=
  { side := Side.buy, otype := OType.limit, price := 100, quantity := 400,
    persistent := true }

/-- A plain (non-persistent) limit order. -/
def plainDemo : Order :=
  { side := Side.buy, otype := OType.limit, price := 100, quantity := 5 }

/-- C5 counterexample: the source's orders carry no `expireAfterSeconds`
value at all, so under the claim no cancellation would ever be scheduled
and warmup limit orders would expire after 1800 seconds.  In fact a warmup
limit order (persistent) gets no scheduled cancellation even on a
successful create, while a plain non-persistent order - which carries no
expiry value - does get one, after the fixed 600 (not 1800) seconds. -/
theorem C5_counterexample :
    send_order_schedule warmupLimitDemo (Option.some "A") = Option.none ∧
    send_order_schedule plainDemo (Option.some "B") =
      Option.some ("B", schedule_delete_delay) ∧
    schedule_delete_delay ≠ 1800 := by
  refine ⟨by decide, by decide, by decide⟩

/-- C5 (amended): for every submitted order whose creation succeeds, a
background cancellation of that exact order is scheduled iff the response
carried a non-empty order id and the order is NOT persistent, and the
cancellation fires after the fixed 600-second delay of
`schedule_order_delete`; warmup limit orders are persistent, so they are
never auto-cancelled (the 1800-second figure is the deadline of the
unrelated counterparty-cancel worker). -/
theorem C5_schedule_iff (o : Order) (r : Option String) (oid : String) (d : ℕ) :
    send_order_schedule o r = Option.some (oid, d) ↔
      r = Option.some oid ∧ oid ≠ "" ∧ o.persistent = false ∧
        d = schedule_delete_delay := by
  cases r with
  | none => simp [send_order_schedule]
  | some s =>
      simp only [send_order_schedule]
      split_ifs with h
      · simp only [Option.some.injEq, Prod.mk.injEq]
        constructor
        · rintro ⟨rfl, rfl⟩
          exact ⟨rfl, h.1, h.2, rfl⟩
        · rintro ⟨hs, hne, hp, rfl⟩
          exact ⟨hs, rfl⟩
      · constructor
        · intro hc
          simp at hc
        · rintro ⟨hs, hne, hp, rfl⟩
          injection hs with hs
          subst hs
          exact absurd ⟨hne, hp⟩ h

/-- The reset `market_mode = "neutral"`, `oneway_strength = "none"` (with
the matching `prev_` fields) that both the warmup branch and the failed-draw
branch of `maybe_trigger_oneway` perform. -/
def forceNeutral (st : BotState) : BotState :=
  { st with market_mode := Mode.neutral, oneway_strength := Strength.none,
            prev_market_mode := Mode.neutral,
            prev_oneway_strength := Strength.none }

/-- The non-warmup part of `maybe_trigger_oneway` (source lines 244-274).
The source draws the strength with the same weights `[0.5, 0.3, 0.2]` in
both direction branches; the embedding draws it once.  `market_mode_until`
is set from the drawn duration before the strength draw, as in the source. -/
def maybe_trigger_core (cfg : Config) (st : BotState) (now : ℚ) (g : Rng) :
    BotState × Rng :=
  if st.market_mode = Mode.neutral ∨ st.market_mode_until < now then
    let r1 := randUnit g
    if r1.1 < cfg.oneway_prob then
      let current_price := get_reference_price cfg st
      let bias : ℚ :=
        if current_price ≤ 10 then mkRat 9 10
        else if current_price ≤ 50 then mkRat 4 5
        else cfg.upward_bias
      let r2 := rchoices [(Mode.oneway_up, bias), (Mode.oneway_down, qsub 1 bias)]
        Mode.oneway_up r1.2
      let r3 := randint cfg.oneway_duration_min cfg.oneway_duration_max r2.2
      let r4 := rchoices [(Strength.weak, mkRat 1 2), (Strength.medium, mkRat 3 10),
        (Strength.strong, mkRat 1 5)] Strength.weak r3.2
      ({ st with market_mode := r2.1, market_mode_until := qadd now (mkRat r3.1 1),
                 oneway_strength := r4.1, prev_market_mode := r2.1,
                 prev_oneway_strength := r4.1 }, r4.2)
    else (forceNeutral st, r1.2)
  else (st, g)

/-- `maybe_trigger_oneway` (source lines 227-274): inside the warmup window
the mode is forced to neutral with strength none, unconditionally and
without consuming randomness; otherwise the probabilistic trigger runs. -/
def maybe_trigger_oneway (cfg : Config) (st : BotState) (now : ℚ) (g : Rng) :
    BotState × Rng :=
  match st.market_opened_at with
  | Option.some t0 =>
      if qsub now t0 < cfg.market_warmup_seconds then (forceNeutral st, g)
      else maybe_trigger_core cfg st now g
  | Option.none => maybe_trigger_core cfg st now g

/-- `set_liquidity_level` (source lines 184-193). -/
def set_liquidity_level (st : BotState) (g : Rng) : BotState × Rng :=
  match st.oneway_strength with
  | Strength.strong => ({ st with liquidity_level := Liquidity.high }, g)
  | Strength.medium => ({ st with liquidity_level := Liquidity.normal }, g)
  | Strength.weak => ({ st with liquidity_level := Liquidity.low }, g)
  | Strength.none =>
      let r := rchoices [(Liquidity.normal, mkRat 3 5), (Liquidity.low, mkRat 1 4),
        (Liquidity.high, mkRat 3 20)] Liquidity.normal g
      ({ st with liquidity_level := r.1 }, r.2)

/-- `n` sequential iterations of a randomness-consuming, order-appending
loop body (a `for _ in range(n)` loop or an unindexed comprehension). -/
def loopN (n : ℕ) (body : List Order × Rng → List Order × Rng)
    (acc : List Order × Rng) : List Order × Rng :=
  match n with
  | 0 => acc
  | k + 1 => loopN k body (body acc)

/-- `n` indexed iterations (a comprehension `for i in range(n)`). -/
def loopIdx (n : ℕ) (body : ℕ → List Order × Rng → List Order × Rng)
    (acc : List Order × Rng) : List Order × Rng :=
  (List.range n).foldl (fun a i => body i a) acc

/-- `whale_orders` (source lines 208-225).  Within each comprehension the
price's `randint` is drawn before the quantity's, following the dict
literal's evaluation order. -/
def whale_orders (cfg : Config) (ref_price : ℤ) (g : Rng) : List Order × Rng :=
  let rdir := rchoice [true, false] true g
  let rsz := randint 250 500 rdir.2
  let rmult := randint 2 4 rsz.2
  let size_base := rsz.1
  let m := rmult.1.toNat
  if rdir.1 then
    let markets : List Order := List.replicate m
      { side := Side.buy, otype := OType.market, quantity := size_base,
        log := Option.some "[WHALE]" }
    let buys := loopIdx m (fun i acc =>
      let r1 := randint 5 25 acc.2
      let r2 := randint (Int.fdiv size_base 2) size_base r1.2
      (acc.1 ++
        [{ side := Side.buy, otype := OType.limit,
           price := nearest_tick cfg (ref_price + r1.1 * ((i : ℤ) + 1)),
           quantity := r2.1, log := Option.some "[WHALE]" }], r2.2)) ([], rmult.2)
    let sells := loopIdx m (fun i acc =>
      let r1 := randint 30 80 acc.2
      let r2 := randint (Int.fdiv size_base 3) size_base r1.2
      (acc.1 ++
        [{ side := Side.sell, otype := OType.limit,
           price := nearest_tick cfg (ref_price + r1.1 * ((i : ℤ) + 1)),
           quantity := r2.1, log := Option.some "[WHALE]" }], r2.2)) ([], buys.2)
    (markets ++ buys.1 ++ sells.1, sells.2)
  else
    let markets : List Order := List.replicate m
      { side := Side.sell, otype := OType.market, quantity := size_base,
        log := Option.some "[WHALE]" }
    let sells := loopIdx m (fun i acc =>
      let r1 := randint 5 25 acc.2
      let r2 := randint (Int.fdiv size_base 2) size_base r1.2
      (acc.1 ++
        [{ side := Side.sell, otype := OType.limit,
           price := nearest_tick cfg (ref_price - r1.1 * ((i : ℤ) + 1)),
           quantity := r2.1, log := Option.some "[WHALE]" }], r2.2)) ([], rmult.2)
    let buys := loopIdx m (fun i acc =>
      let r1 := randint 30 80 acc.2
      let r2 := randint (Int.fdiv size_base 3) size_base r1.2
      (acc.1 ++
        [{ side := Side.buy, otype := OType.limit,
           price := nearest_tick cfg (ref_price - r1.1 * ((i : ℤ) + 1)),
           quantity := r2.1, log := Option.some "[WHALE]" }], r2.2)) ([], sells.2)
    (markets ++ sells.1 ++ buys.1, buys.2)

/-- The strength multiplier of the oneway-up branch of `decide_orders`
(source line 371): `{"strong": 2.4, "medium": 1.8, "weak": 1.5}`.  A
`"none"` strength would raise `KeyError` in the source; it is unreachable
(the trigger always pairs a oneway mode with a drawn strength) and the
total model maps it to 1. -/
def strMultUp : Strength → ℚ
  | Strength.strong => mkRat 12 5
  | Strength.medium => mkRat 9 5
  | Strength.weak => mkRat 3 2
  | Strength.none => 1

/-- The strength multiplier of the oneway-down branch (source line 376):
`{"strong": 2.4, "medium": 1.5, "weak": 1.1}`; `"none"` as above. -/
def strMultDown : Strength → ℚ
  | Strength.strong => mkRat 12 5
  | Strength.medium => mkRat 3 2
  | Strength.weak => mkRat 11 10
  | Strength.none => 1

/-- The oneway-up intents of `decide_orders` (source lines 370-374). -/
def onewayUpIntents (cfg : Config) (sm : ℚ) (ref_price : ℤ) (g : Rng) :
    List Order × Rng :=
  let rn := randint 2 5 g
  let n := (ratTrunc (qmul (mkRat rn.1 1) sm)).toNat
  let buys := loopN n (fun acc =>
    let r1 := randint 10 30 acc.2
    let r2 := randint 7 150 r1.2
    (acc.1 ++
      [{ side := Side.buy, otype := OType.limit,
         price := nearest_tick cfg
           (ref_price + ratTrunc (qmul sm (mkRat r1.1 1)) * cfg.ticksize),
         quantity := ratTrunc (qmul (mkRat r2.1 1) sm) }], r2.2)) ([], rn.2)
  let sells := loopN n (fun acc =>
    let r1 := randint 12 35 acc.2
    let r2 := randint 1 50 r1.2
    (acc.1 ++
      [{ side := Side.sell, otype := OType.limit,
         price := nearest_tick cfg
           (ref_price + ratTrunc (qmul sm (mkRat r1.1 1)) * cfg.ticksize),
         quantity := ratTrunc (qmul (mkRat r2.1 1) sm) }], r2.2)) ([], buys.2)
  (buys.1 ++ sells.1, sells.2)

/-- The oneway-down intents of `decide_orders` (source lines 375-379). -/
def onewayDownIntents (cfg : Config) (sm : ℚ) (ref_price : ℤ) (g : Rng) :
    List Order × Rng :=
  let rn := randint 2 5 g
  let n := (ratTrunc (qmul (mkRat rn.1 1) sm)).toNat
  let sells := loopN n (fun acc =>
    let r1 := randint 10 30 acc.2
    let r2 := randint 7 150 r1.2
    (acc.1 ++
      [{ side := Side.sell, otype := OType.limit,
         price := nearest_tick cfg
           (ref_price - ratTrunc (qmul sm (mkRat r1.1 1)) * cfg.ticksize),
         quantity := ratTrunc (qmul (mkRat r2.1 1) sm) }], r2.2)) ([], rn.2)
  let buys := loopN n (fun acc =>
    let r1 := randint 12 35 acc.2
    let r2 := randint 1 50 r1.2
    (acc.1 ++
      [{ side := Side.buy, otype := OType.limit,
         price := nearest_tick cfg
           (ref_price - ratTrunc (qmul sm (mkRat r1.1 1)) * cfg.ticksize),
         quantity := ratTrunc (qmul (mkRat r2.1 1) sm) }], r2.2)) ([], sells.2)
  (sells.1 ++ buys.1, buys.2)

/-- One layer of the neutral drift branch of `decide_orders` (source lines
396-411).  All appended orders are limit orders; per-quantity `randint`
draws happen only when the corresponding append happens, as in the
source. -/
def driftStep (cfg : Config) (ref_price : ℤ) (trend : Trend)
    (acc : List Order × Rng) : List Order × Rng :=
  let r1 := randint 1 6 acc.2
  let price_up := nearest_tick cfg (ref_price + r1.1 * cfg.ticksize)
  let r2 := randint 1 5 r1.2
  let price_dn := nearest_tick cfg (ref_price - r2.1 * cfg.ticksize)
  match trend with
  | Trend.slight_up =>
      let u := randUnit r2.2
      let s1 :=
        if u.1 < mkRat 3 5 then
          let q := randint 1 85 u.2
          (acc.1 ++
            [{ side := Side.buy, otype := OType.limit,
               price := price_up, quantity := q.1 }], q.2)
        else (acc.1, u.2)
      let q2 := randint 1 85 s1.2
      (s1.1 ++
        [{ side := Side.sell, otype := OType.limit, price := price_dn,
           quantity := q2.1 }], q2.2)
  | Trend.slight_down =>
      let u := randUnit r2.2
      let s1 :=
        if u.1 < mkRat 3 5 then
          let q := randint 1 85 u.2
          (acc.1 ++
            [{ side := Side.sell, otype := OType.limit,
               price := price_dn, quantity := q.1 }], q.2)
        else (acc.1, u.2)
      let u2 := randUnit s1.2
      if u2.1 < mkRat 2 5 then
        let q := randint 1 85 u2.2
        (s1.1 ++
          [{ side := Side.buy, otype := OType.limit, price := price_up,
             quantity := q.1 }], q.2)
      else (s1.1, u2.2)
  | Trend.neutral =>
      let u := randUnit r2.2
      let s1 :=
        if u.1 < mkRat 3 5 then
          let q := randint 1 85 u.2
          (acc.1 ++
            [{ side := Side.buy, otype := OType.limit,
               price := price_up, quantity := q.1 }], q.2)
        else (acc.1, u.2)
      let q2 := randint 1 85 s1.2
      (s1.1 ++
        [{ side := Side.sell, otype := OType.limit, price := price_dn,
           quantity := q2.1 }], q2.2)

/-- The neutral drift branch of `decide_orders` (source lines 385-411):
draw a micro-trend with weights `[UPWARD_BIAS, 1 - UPWARD_BIAS, 0.2]`,
record it in `prev_market_trend` (the source assigns only on change, which
is equivalent to always assigning), and lay 2-5 randomised layers. -/
def driftOrders (cfg : Config) (st : BotState) (ref_price : ℤ) (g : Rng) :
    List Order × BotState × Rng :=
  let rt := rchoices [(Trend.slight_up, cfg.upward_bias),
    (Trend.slight_down, qsub 1 cfg.upward_bias), (Trend.neutral, mkRat 1 5)]
    Trend.neutral g
  let st1 := { st with prev_market_trend := Option.some rt.1 }
  let rn := randint 2 5 rt.2
  let body := loopN rn.1.toNat (driftStep cfg ref_price rt.1) ([], rn.2)
  (body.1, st1, body.2)

/-- One paired buy/sell iteration of the warmup flood (source lines
333-344): persistent limit orders at random offsets on both sides. -/
def warmupStep (cfg : Config) (ref_price : ℤ) (acc : List Order × Rng) :
    List Order × Rng :=
  let r1 := randint 1 60 acc.2
  let buy_price := nearest_tick cfg (ref_price - r1.1 * cfg.ticksize)
  let r2 := randint 400 800 r1.2
  let r3 := randint 1 60 r2.2
  let sell_price := nearest_tick cfg (ref_price + r3.1 * cfg.ticksize)
  let r4 := randint 400 800 r3.2
  (acc.1 ++
    [{ side := Side.buy, otype := OType.limit, price := buy_price,
       quantity := r2.1, persistent := true },
     { side := Side.sell, otype := OType.limit, price := sell_price,
       quantity := r4.1, persistent := true }], r4.2)

/-- One market-order iteration of the warmup branch (source lines 347-358):
random side, random quantity in `[lo, hi]`, not persistent. -/
def warmupMarketStep (lo hi : ℤ) (acc : List Order × Rng) :
    List Order × Rng :=
  let rs := rchoice [Side.buy, Side.sell] Side.buy acc.2
  let rq := randint lo hi rs.2
  (acc.1 ++ [{ side := rs.1, otype := OType.market, quantity := rq.1 }], rq.2)

/-- The warmup branch of `decide_orders` (source lines 330-358), before the
spread filler and aggregation: 25-40 persistent limit pairs, 3-8 market
orders sized 50-150, 1-3 small market orders sized 10-50. -/
def warmupIntents (cfg : Config) (ref_price : ℤ) (g : Rng) :
    List Order × Rng :=
  let rn := randint 25 40 g
  let a1 := loopN rn.1.toNat (warmupStep cfg ref_price) ([], rn.2)
  let rm := randint 3 8 a1.2
  let a2 := loopN rm.1.toNat (warmupMarketStep 50 150) (a1.1, rm.2)
  let rs := randint 1 3 a2.2
  loopN rs.1.toNat (warmupMarketStep 10 50) (a2.1, rs.2)

/-- The depth-snapshot guard and spread-filler append of `decide_orders`
(source lines 361-364 and 413-416): the filler runs only when the snapshot
exists and both book sides are non-empty; best bid/ask are the first
levels' prices. -/
def appendSpreadFiller (cfg : Config) (st : BotState) (now : ℚ)
    (os : List Order) (g : Rng) : List Order × Rng :=
  match st.depth_data with
  | Option.some d =>
      match d.bids.head?, d.asks.head? with
      | Option.some bb, Option.some ba =>
          let sf := spread_filler_orders cfg st now bb.1 ba.1 g
          (os ++ sf.1, sf.2)
      | _, _ => (os, g)
  | Option.none => (os, g)

/-- `decide_orders` (source lines 323-419): trigger the mode machine, set
the liquidity level, compute the reference price, generate one batch of
intents by regime (warmup / oneway up / oneway down / whale / drift),
append the spread filler, and aggregate.  Returns (aggregated orders,
final state, final rng). -/
def decide_orders (cfg : Config) (st : BotState) (now : ℚ) (g : Rng) :
    List Order × BotState × Rng :=
  let t1 := maybe_trigger_oneway cfg st now g
  let t2 := set_liquidity_level t1.1 t1.2
  let st2 := t2.1
  let ref_price := get_reference_price cfg st2
  if is_warmup_period cfg st2 now then
    let w := warmupIntents cfg ref_price t2.2
    let f := appendSpreadFiller cfg st2 now w.1 w.2
    (aggregate_orders f.1, st2, f.2)
  else if st2.market_mode = Mode.oneway_up then
    let o := onewayUpIntents cfg (strMultUp st2.oneway_strength) ref_price t2.2
    let f := appendSpreadFiller cfg st2 now o.1 o.2
    (aggregate_orders f.1, st2, f.2)
  else if st2.market_mode = Mode.oneway_down then
    let o := onewayDownIntents cfg (strMultDown st2.oneway_strength) ref_price t2.2
    let f := appendSpreadFiller cfg st2 now o.1 o.2
    (aggregate_orders f.1, st2, f.2)
  else
    let u := randUnit t2.2
    if u.1 < cfg.whale_ratio then
      let w := whale_orders cfg ref_price u.2
      let f := appendSpreadFiller cfg st2 now w.1 w.2
      (aggregate_orders f.1, st2, f.2)
    else
      let dr := driftOrders cfg st2 ref_price u.2
      let f := appendSpreadFiller cfg dr.2.1 now dr.1 dr.2.2
      (aggregate_orders f.1, dr.2.1, f.2)

lemma foldl_step_preserve {β : Type} (P : Order → Prop)
    (step : List Order × Rng → β → List Order × Rng)
    (hstep : ∀ acc b, (∀ o ∈ acc.1, P o) → ∀ o ∈ (step acc b).1, P o) :
    ∀ (l : List β) (acc : List Order × Rng),
      (∀ o ∈ acc.1, P o) → ∀ o ∈ (l.foldl step acc).1, P o := by
  intro l
  induction l with
  | nil => intro acc h; exact h
  | cons b rest ih => intro acc h; exact ih (step acc b) (hstep acc b h)

lemma loopN_preserve (P : Order → Prop)
    (body : List Order × Rng → List Order × Rng)
    (hbody : ∀ acc, (∀ o ∈ acc.1, P o) → ∀ o ∈ (body acc).1, P o) :
    ∀ (n : ℕ) (acc : List Order × Rng),
      (∀ o ∈ acc.1, P o) → ∀ o ∈ (loopN n body acc).1, P o := by
  intro n
  induction n with
  | zero => intro acc h; exact h
  | succ k ih => intro acc h; exact ih (body acc) (hbody acc h)

lemma driftStep_limit (cfg : Config) (ref_price : ℤ) (trend : Trend)
    (acc : List Order × Rng) (h : ∀ o ∈ acc.1, o.otype = OType.limit) :
    ∀ o ∈ (driftStep cfg ref_price trend acc).1, o.otype = OType.limit := by
  have hsing : ∀ (s : Side) (px q : ℤ),
      ∀ o ∈ [({ side := s, otype := OType.limit, price := px,
                quantity := q } : Order)], o.otype = OType.limit := by
    intro s px q o ho
    rw [List.mem_singleton] at ho
    subst ho
    rfl
  unfold driftStep
  cases trend <;> dsimp only <;> split_ifs <;>
    first
      | exact List.forall_mem_append.mpr
          ⟨List.forall_mem_append.mpr ⟨h, hsing _ _ _⟩, hsing _ _ _⟩
      | exact List.forall_mem_append.mpr ⟨h, hsing _ _ _⟩
      | exact h

lemma driftOrders_limit (cfg : Config) (st : BotState) (ref_price : ℤ)
    (g : Rng) :
    ∀ o ∈ (driftOrders cfg st ref_price g).1, o.otype = OType.limit := by
  unfold driftOrders
  dsimp only
  exact loopN_preserve _ _
    (fun acc hacc => driftStep_limit cfg ref_price _ acc hacc) _ _
    (fun o ho => absurd ho (List.not_mem_nil o))

/-- C9 (amended): in the neutral drift regime the layering emits limit
orders only: for every state, reference price and RNG outcome, every order
produced by the drift branch of `decide_orders` is a limit order.  In
particular no RNG outcome appends a market order: the spec's "with 30%
probability append one small market order" step does not exist in the
code (lines 395-411 append limit orders only). -/
theorem C9_drift_limit_only (cfg : Config) (st : BotState) (ref_price : ℤ)
    (g : Rng) (o : Order) (ho : o ∈ (driftOrders cfg st ref_price g).1) :
    o.otype = OType.limit :=
  driftOrders_limit cfg st ref_price g o ho

/-- C9 counterexample: at the default configuration, default state and
reference price 32000, there exists no RNG outcome under which the drift
branch emits any market order, refuting the claimed 30%-probability small
market order. -/
theorem C9_counterexample :
    ¬ ∃ g : Rng, ∃ o ∈ (driftOrders cfgD stN 32000 g).1,
      o.otype = OType.market := by
  rintro ⟨g, o, ho, hm⟩
  have hl := driftOrders_limit cfgD stN 32000 g o ho
  rw [hl] at hm
  cases hm

/-- The first drift order produced at the all-zero generator. -/
def driftDemo : Order :=
  { side := Side.buy, otype := OType.limit, price := 32010, quantity := 1 }

/-- C9 witness: the amended theorem applied to a concrete drift order. -/
theorem C9_witness : driftDemo.otype = OType.limit :=
  C9_drift_limit_only cfgD stN 32000 rng0 driftDemo (by decide)

lemma lFilter_mem {s : Side} {px : ℤ} {orders : List Order} {x : Order}
    (hx : x ∈ lFilter s px orders) : x ∈ orders ∧ x.otype = OType.limit := by
  rw [lFilter, List.mem_filter] at hx
  refine ⟨hx.1, ?_⟩
  have h2 := hx.2
  simp only [Bool.and_eq_true, beq_iff_eq] at h2
  exact h2.1.1

lemma aggregate_limit_persistent {orders : List Order}
    (h : ∀ o ∈ orders, o.otype = OType.limit → o.persistent = true) :
    ∀ a ∈ aggregate_orders orders, a.otype = OType.limit →
      a.persistent = true := by
  intro a ha hl
  rcases mem_aggregate ha with ⟨hm, _⟩ | ⟨_, hfind⟩
  · rw [hl] at hm
    cases hm
  · rw [limit_fold orders ([], []) a.side a.price] at hfind
    simp only [assocFind] at hfind
    by_cases hne : lFilter a.side a.price orders ≠ []
    · rw [if_pos (Or.inr hne)] at hfind
      have heq := Option.some.injEq .. ▸ hfind
      have hp := congrArg AggData.persistent heq.symm
      rw [foldl_upd_persistent] at hp
      simp only [Option.getD] at hp
      obtain ⟨x, hxm⟩ := List.exists_mem_of_ne_nil _ hne
      have hpx : x.persistent = true := h x (lFilter_mem hxm).1 (lFilter_mem hxm).2
      have hany : (lFilter a.side a.price orders).any (fun o => o.persistent) = true :=
        List.any_eq_true.mpr ⟨x, hxm, hpx⟩
      rw [hp, hany]
      simp
    · rw [if_neg (by simpa using hne)] at hfind
      cases hfind

lemma warmupStep_prop (cfg : Config) (ref : ℤ) :
    ∀ acc : List Order × Rng,
      (∀ o ∈ acc.1, o.otype = OType.limit → o.persistent = true) →
      ∀ o ∈ (warmupStep cfg ref acc).1,
        o.otype = OType.limit → o.persistent = true := by
  intro acc h o ho
  unfold warmupStep at ho
  dsimp only at ho
  simp only [List.mem_append, List.mem_cons, List.mem_singleton,
    List.not_mem_nil, or_false] at ho
  rcases ho with ho | rfl | rfl
  · exact h o ho
  · intro _hl; rfl
  · intro _hl; rfl

lemma warmupMarketStep_prop (lo hi : ℤ) :
    ∀ acc : List Order × Rng,
      (∀ o ∈ acc.1, o.otype = OType.limit → o.persistent = true) →
      ∀ o ∈ (warmupMarketStep lo hi acc).1,
        o.otype = OType.limit → o.persistent = true := by
  intro acc h o ho
  unfold warmupMarketStep at ho
  dsimp only at ho
  simp only [List.mem_append, List.mem_singleton] at ho
  rcases ho with ho | rfl
  · exact h o ho
  · intro hcon
    exact OType.noConfusion hcon

lemma warmupIntents_prop (cfg : Config) (ref : ℤ) (g : Rng) :
    ∀ o ∈ (warmupIntents cfg ref g).1,
      o.otype = OType.limit → o.persistent = true := by
  unfold warmupIntents
  dsimp only
  apply loopN_preserve _ _ (warmupMarketStep_prop 10 50)
  apply loopN_preserve _ _ (warmupMarketStep_prop 50 150)
  apply loopN_preserve _ _ (warmupStep_prop cfg ref)
  intro o ho
  cases ho

lemma sfUpStep_prop (cfg : Config) (warm : Bool) (sm : ℚ) :
    ∀ (acc : List Order × Rng) (px : ℤ),
      (∀ o ∈ acc.1, o.persistent = warm) →
      ∀ o ∈ (sfUpStep cfg warm sm acc px).1, o.persistent = warm := by
  intro acc px h o ho
  unfold sfUpStep at ho
  dsimp only at ho
  simp only [List.mem_append, List.mem_cons, List.mem_singleton,
    List.not_mem_nil, or_false] at ho
  rcases ho with ho | rfl | rfl
  · exact h o ho
  · rfl
  · rfl

lemma sfDownStep_prop (cfg : Config) (warm : Bool) (sm : ℚ) :
    ∀ (acc : List Order × Rng) (px : ℤ),
      (∀ o ∈ acc.1, o.persistent = warm) →
      ∀ o ∈ (sfDownStep cfg warm sm acc px).1, o.persistent = warm := by
  intro acc px h o ho
  unfold sfDownStep at ho
  dsimp only at ho
  simp only [List.mem_append, List.mem_cons, List.mem_singleton,
    List.not_mem_nil, or_false] at ho
  rcases ho with ho | rfl | rfl
  · exact h o ho
  · rfl
  · rfl

lemma sfNeutralStep_prop (cfg : Config) (warm : Bool) (sm : ℚ) :
    ∀ (acc : List Order × Rng) (px : ℤ),
      (∀ o ∈ acc.1, o.persistent = warm) →
      ∀ o ∈ (sfNeutralStep cfg warm sm acc px).1, o.persistent = warm := by
  intro acc px h o ho
  unfold sfNeutralStep at ho
  dsimp only at ho
  simp only [List.mem_append, List.mem_singleton] at ho
  rcases ho with ho | rfl
  · exact h o ho
  · rfl

lemma spread_filler_persistent (cfg : Config) (st : BotState) (now : ℚ)
    (bb ba : ℤ) (g : Rng) :
    ∀ o ∈ (spread_filler_orders cfg st now bb ba g).1,
      o.persistent = is_warmup_period cfg st now := by
  unfold spread_filler_orders
  dsimp only
  split_ifs <;>
    first
      | exact foldl_step_preserve _ _
          (fun acc b hacc => sfUpStep_prop cfg _ _ acc b hacc) _ _
          (fun o ho => absurd ho (List.not_mem_nil o))
      | exact foldl_step_preserve _ _
          (fun acc b hacc => sfDownStep_prop cfg _ _ acc b hacc) _ _
          (fun o ho => absurd ho (List.not_mem_nil o))
      | exact foldl_step_preserve _ _
          (fun acc b hacc => sfNeutralStep_prop cfg _ _ acc b hacc) _ _
          (fun o ho => absurd ho (List.not_mem_nil o))
      | (intro o ho; cases ho)

lemma appendSpreadFiller_prop (cfg : Config) (st : BotState) (now : ℚ)
    (os : List Order) (g : Rng)
    (hos : ∀ o ∈ os, o.otype = OType.limit → o.persistent = true)
    (hw : is_warmup_period cfg st now = true) :
    ∀ o ∈ (appendSpreadFiller cfg st now os g).1,
      o.otype = OType.limit → o.persistent = true := by
  unfold appendSpreadFiller
  cases hd : st.depth_data with
  | none => dsimp only; exact hos
  | some d =>
      dsimp only
      cases hb : d.bids.head? with
      | none =>
          cases ha : d.asks.head? with
          | none => dsimp only; exact hos
          | some ba => dsimp only; exact hos
      | some bb =>
          cases ha : d.asks.head? with
          | none => dsimp only; exact hos
          | some ba =>
              dsimp only
              intro o ho _hl
              rcases List.mem_append.mp ho with ho1 | ho2
              · exact hos o ho1 _hl
              · have hsf := spread_filler_persistent cfg st now bb.1 ba.1 g o ho2
                rw [hsf]
                exact hw

lemma forceNeutral_mode_update (st : BotState) (m : Mode) (s : Strength) :
    forceNeutral { st with market_mode := m, oneway_strength := s } =
      forceNeutral st := by
  cases st
  rfl

lemma trigger_warmup (cfg : Config) (st : BotState) (now : ℚ) (g : Rng)
    (t0 : ℚ) (ho : st.market_opened_at = Option.some t0)
    (hlt : qsub now t0 < cfg.market_warmup_seconds) :
    maybe_trigger_oneway cfg st now g = (forceNeutral st, g) := by
  unfold maybe_trigger_oneway
  rw [ho]
  dsimp only
  rw [if_pos hlt]

lemma is_warmup_iff (cfg : Config) (st : BotState) (now : ℚ) :
    is_warmup_period cfg st now = true ↔
      ∃ t0, st.market_opened_at = Option.some t0 ∧
        qsub now t0 < cfg.market_warmup_seconds := by
  unfold is_warmup_period
  cases h : st.market_opened_at with
  | none => simp
  | some t0 => simp [decide_eq_true_eq]

lemma is_warmup_congr (cfg : Config) (now : ℚ) {st st' : BotState}
    (h : st'.market_opened_at = st.market_opened_at) :
    is_warmup_period cfg st' now = is_warmup_period cfg st now := by
  unfold is_warmup_period
  rw [h]

lemma set_liq_fields (st : BotState) (g : Rng) :
    (set_liquidity_level st g).1.market_mode = st.market_mode ∧
    (set_liquidity_level st g).1.oneway_strength = st.oneway_strength ∧
    (set_liquidity_level st g).1.market_opened_at = st.market_opened_at := by
  unfold set_liquidity_level
  cases h : st.oneway_strength <;> exact ⟨rfl, rfl, rfl⟩

lemma decide_orders_warmup (cfg : Config) (st : BotState) (now : ℚ) (g : Rng)
    (hw : is_warmup_period cfg st now = true) :
    decide_orders cfg st now g =
      (let t2 := set_liquidity_level (forceNeutral st) g
       let w := warmupIntents cfg (get_reference_price cfg t2.1) t2.2
       let f := appendSpreadFiller cfg t2.1 now w.1 w.2
       (aggregate_orders f.1, t2.1, f.2)) := by
  obtain ⟨t0, ho, hlt⟩ := (is_warmup_iff cfg st now).mp hw
  have hcond : is_warmup_period cfg
      (set_liquidity_level (forceNeutral st) g).1 now = true := by
    rw [is_warmup_congr cfg now
      ((set_liq_fields (forceNeutral st) g).2.2.trans rfl)]
    exact hw
  unfold decide_orders
  rw [trigger_warmup cfg st now g t0 ho hlt]
  dsimp only
  rw [hcond]
  rw [if_pos rfl]

/-- C2: for every RNG seed and every state within the warmup window since
market open, `decide_orders` (i) leaves the mode forced to neutral with
strength none - the forcing happens in `maybe_trigger_oneway`, before any
order is generated; (ii) returns warmup-shaped orders: every aggregated
limit order is persistent (the warmup flood and the warmup spread filler
mark all their limit intents persistent); and (iii) returns an order batch
that is independent of the pre-tick mode and strength, so no order can
betray a non-neutral mode, regardless of seed. -/
theorem C2_warmup_forces_neutral (cfg : Config) (st : BotState) (now : ℚ)
    (g : Rng) (hw : is_warmup_period cfg st now = true) :
    ((decide_orders cfg st now g).2.1.market_mode = Mode.neutral ∧
      (decide_orders cfg st now g).2.1.oneway_strength = Strength.none) ∧
    (∀ o ∈ (decide_orders cfg st now g).1,
      o.otype = OType.limit → o.persistent = true) ∧
    (∀ (m : Mode) (s : Strength),
      (decide_orders cfg
        { st with market_mode := m, oneway_strength := s } now g).1 =
      (decide_orders cfg st now g).1) := by
  refine ⟨?_, ?_, ?_⟩
  · rw [decide_orders_warmup cfg st now g hw]
    dsimp only
    exact ⟨(set_liq_fields (forceNeutral st) g).1.trans rfl,
      (set_liq_fields (forceNeutral st) g).2.1.trans rfl⟩
  · rw [decide_orders_warmup cfg st now g hw]
    dsimp only
    apply aggregate_limit_persistent
    apply appendSpreadFiller_prop
    · exact warmupIntents_prop cfg _ _
    · rw [is_warmup_congr cfg now
        ((set_liq_fields (forceNeutral st) g).2.2.trans rfl)]
      exact hw
  · intro m s
    have hw2 : is_warmup_period cfg
        { st with market_mode := m, oneway_strength := s } now = true := by
      rw [is_warmup_congr cfg now rfl]
      exact hw
    rw [decide_orders_warmup cfg _ now g hw2,
      decide_orders_warmup cfg st now g hw]
    dsimp only
    rw [forceNeutral_mode_update st m s]

/-- C2 witness: at the default configuration, a state freshly opened at
time 0, tick time 0 and the all-zero generator, the post-tick mode is
neutral with strength none. -/
theorem C2_witness :
    (decide_orders cfgD stW 0 rng0).2.1.market_mode = Mode.neutral ∧
      (decide_orders cfgD stW 0 rng0).2.1.oneway_strength = Strength.none :=
  (C2_warmup_forces_neutral cfgD stW 0 rng0 (by decide)).1

end MM
